import Mathlib

/-!
Verification of the QUIC throughput-benchmarking client (`src/main.go`)
against its natural-language specification.

The development is a shallow embedding of the client's core logic:

* `generatePRData` — the pseudo-random payload generator (main.go 36-44).
  Go's `uint64` arithmetic never overflows here (the seed stays below
  `2147483647 < 2^31` and `2^31 * 48271 < 2^47 < 2^64`), so plain `Nat`
  arithmetic is a faithful model; `byte(seed)` is `seed % 256`.
* the upload task (main.go 115-139): chunked writes with re-armed write
  deadlines, modelled as an executable recursion over the payload, with a
  fault schedule selecting which write call (if any) fails.
* the download slot state machine (main.go 154-236): a bidirectional
  accept with a 30 s timeout, a unidirectional fallback with the same
  timeout, and a read loop that tolerates timeout-classified errors,
  modelled as a function of an environment recording what the peer
  delivered on that slot.  A read trace that ends without an EOF or a
  non-timeout error models a read loop that has not terminated (e.g. a
  deadline-incapable receive stream blocking forever); such a task never
  reaches its duration append nor `w.Done()`.
* the measurement aggregator (main.go 242-258): the no-data guard and the
  throughput formula.  Go's `float64` arithmetic is modelled by `ℚ`; every
  value the claims touch (powers of two, a one-second average) is exactly
  representable in binary floating point, so the rational model agrees
  with the Go computation on those inputs.  `time.Duration` values are
  integer nanosecond counts, modelled as `Nat` (the Go `int64` values in
  play never overflow or go negative).
* the mutex-protected shared counter (main.go 33, 185-189, 216-218),
  modelled as a small-step machine whose tasks run the event sequence
  lock; read; write; unlock — exactly the critical section
  `mu.Lock(); total += n; mu.Unlock()` with the read-modify-write of
  `total += n` split into its constituent load and store — so that the
  no-lost-update property is derived from mutual exclusion rather than
  assumed.
-/

/-! ### Constants from the source -/

/-- `const ratio = 1048576` (main.go line 21): the binary-mega divisor used
for the Mbps report. -/
def ratio : Nat := 1048576

/-- One second in nanoseconds: Go's `time.Second`. -/
def second : Nat := 1000000000

/-- The accept timeout used by both `AcceptStream` and `AcceptUniStream`
contexts (main.go lines 160 and 167: `30*time.Second`), in nanoseconds. -/
def acceptTimeoutNs : Nat := 30 * second

/-- The write deadline re-armed around each upload chunk
(main.go lines 120 and 137: `30*time.Second`), in nanoseconds. -/
def writeDeadlineNs : Nat := 30 * second

/-- The upload chunk size bound (main.go line 124: `chunk := 64 * 1024`). -/
def chunkCap : Nat := 64 * 1024

/-! ### Payload generator (main.go 36-44) -/

/-- One update of the linear-congruential sequence:
`seed = seed * 48271 % 2147483647` (main.go line 40). -/
def prStep (seed : Nat) : Nat := seed * 48271 % 2147483647

/-- The seed after `n` updates starting from an arbitrary current seed. -/
def prSeedFrom (seed : Nat) : Nat → Nat
  | 0 => seed
  | n + 1 => prStep (prSeedFrom seed n)

/-- The seed after `n` updates, starting from `seed := uint64(1)`
(main.go line 38). -/
def prSeed (n : Nat) : Nat := prSeedFrom 1 n

/-- The loop body of `generatePRData`: starting from the current `seed`,
produce the next `l` output bytes (`seed = seed*48271 % 2147483647;
res[i] = byte(seed)`, main.go lines 39-42). -/
def generatePRDataGo (seed : Nat) : Nat → List Nat
  | 0 => []
  | l + 1 =>
    let s2 := prStep seed
    s2 % 256 :: generatePRDataGo s2 l

/-- `generatePRData(l)` (main.go 36-44): the `l`-byte pseudo-random
payload. -/
def generatePRData (l : Nat) : List Nat := generatePRDataGo 1 l

/-! ### Measurement aggregator (main.go 242-258) -/

/-- `avgDur := totalDur / time.Duration(len(times))` (main.go 248-252):
`time.Duration` division is integer division on nanosecond counts. -/
def avgDurNs (times : List Nat) : Nat := times.sum / times.length

/-- `avgDur.Seconds()`: the average duration in seconds, as an exact
rational. -/
def avgDurSeconds (times : List Nat) : ℚ := (avgDurNs times : ℚ) / (second : ℚ)

/-- `bps := float64(total*8) / avgDur.Seconds()` (main.go line 253). -/
def bps (total : Nat) (times : List Nat) : ℚ :=
  ((total * 8 : Nat) : ℚ) / avgDurSeconds times

/-- `Mbps := bps / ratio` (main.go line 254). -/
def mbps (total : Nat) (times : List Nat) : ℚ := bps total times / ( ratio : ℚ)

/-- The reporting stage after the download barrier (main.go 242-257):
`none` models the "No data received." early return (guard
`len(times) == 0 || total == 0`, line 242); `some q` models printing the
Mbps figure `q`. -/
def report (total : Nat) (times : List Nat) : Option ℚ :=
  if times.length = 0 ∨ total = 0 then none else some (mbps total times)

/-! ### Download read loop (main.go 178-201 and 212-231)

The two read loops (unidirectional and bidirectional) are textually
identical except that the bidirectional loop always arms a read deadline
while the unidirectional loop probes the stream for a deadline capability
first; `hasDL` records that probe's outcome. -/

/-- Classification of a non-nil error returned by `Read`. -/
inductive ReadErr
  | eof
  | timeout
  | other
deriving DecidableEq, Repr

/-- One completed `Read` call: `n` bytes returned together with an
optional error. -/
structure ReadEvt where
  n : Nat
  err : Option ReadErr
deriving DecidableEq, Repr

/-- Outcome of a download read loop run against a trace of read events. -/
structure LoopResult where
  /-- Bytes added to the shared `total` (every read with `n > 0` adds `n`,
  main.go 185-189 / 215-218). -/
  bytes : Nat
  /-- Whether the loop reached a `break` (so control continues to the
  duration append).  A trace exhausted without a terminating event models
  a loop still blocked in `Read`. -/
  exited : Bool
  /-- Number of `Read` calls performed. -/
  reads : Nat
  /-- The read deadlines armed, one per iteration when the stream supports
  them (main.go 182 / 213), in order. -/
  arms : List Nat
deriving DecidableEq, Repr

/-- The deadline-arming step of one loop iteration. -/
def armOf (readTO : Nat) (hasDL : Bool) : List Nat :=
  if hasDL then [readTO] else []

/-- The download read loop (main.go 178-201 / 212-231): each iteration
arms a deadline of `readTO` (if supported), performs a read, adds the
returned bytes, then: `io.EOF` breaks, a timeout-classified error
continues, any other error breaks, no error continues. -/
def runLoop (readTO : Nat) (hasDL : Bool) : List ReadEvt → LoopResult
  | [] => ⟨0, false, 0, []⟩
  | e :: rest =>
    match e.err with
    | some ReadErr.eof => ⟨e.n, true, 1, armOf readTO hasDL⟩
    | some ReadErr.other => ⟨e.n, true, 1, armOf readTO hasDL⟩
    | some ReadErr.timeout =>
      let r := runLoop readTO hasDL rest
      ⟨e.n + r.bytes, r.exited, 1 + r.reads, armOf readTO hasDL ++ r.arms⟩
    | none =>
      let r := runLoop readTO hasDL rest
      ⟨e.n + r.bytes, r.exited, 1 + r.reads, armOf readTO hasDL ++ r.arms⟩

/-! ### Download slot state machine (main.go 154-236) -/

/-- The command-line configuration visible to the download goroutines. -/
structure Config where
  /-- The `-uni` flag (main.go line 28). -/
  downloadUni : Bool
  /-- The `-read-timeout` flag (main.go line 29), in nanoseconds. -/
  readTO : Nat
deriving DecidableEq, Repr

/-- What the peer delivered on one download slot: the result of the
bidirectional accept (`none` models `AcceptStream` returning an error,
including a context timeout), the result of the unidirectional fallback
accept, and whether the receive stream exposes `SetReadDeadline`. -/
structure SlotEnv where
  bidi : Option (List ReadEvt)
  uni : Option (List ReadEvt)
  uniHasDL : Bool
deriving DecidableEq, Repr

/-- Observable outcome of one download slot's goroutine. -/
structure SlotOutcome where
  /-- Bytes this task added to the shared total. -/
  bytes : Nat
  /-- Whether this task appended an entry to the shared `times` list. -/
  durRecorded : Bool
  /-- Whether this task ran to completion (reached its deferred
  `w.Done()`). -/
  terminated : Bool
  /-- Number of `Read` calls this task performed. -/
  reads : Nat
deriving DecidableEq, Repr

/-- One download slot (main.go 156-235): try the bidirectional accept;
on success run the read loop (deadlines always armed) and append a
duration when the loop exits; on accept failure try the unidirectional
accept; on its success run the read loop (deadlines armed only if the
capability probe succeeds) and append a duration when the loop exits; if
both accepts fail, log and return with nothing recorded. -/
def runSlot (cfg : Config) (e : SlotEnv) : SlotOutcome :=
  match e.bidi with
  | some tr =>
    let r := runLoop cfg.readTO true tr
    ⟨r.bytes, r.exited, r.exited, r.reads⟩
  | none =>
    match e.uni with
    | some tr =>
      let r := runLoop cfg.readTO e.uniHasDL tr
      ⟨r.bytes, r.exited, r.exited, r.reads⟩
    | none => ⟨0, false, true, 0⟩

/-- The externally visible actions of a slot's acceptance state machine,
with the timeout passed to each accept context. -/
inductive SlotAct
  | acceptBidi (timeoutNs : Nat)
  | acceptUni (timeoutNs : Nat)
  | logAcceptErrors
  | readBidi
  | readUni
deriving DecidableEq, Repr

/-- The sequence of acceptance-machine actions a slot performs
(main.go 159-175 and 208): the bidirectional accept always comes first;
the unidirectional accept happens only after it fails; when both fail the
two errors are logged together (line 171).  The configuration is in scope
for the goroutine but the sequence is determined without consulting it. -/
def slotTrace (cfg : Config) (e : SlotEnv) : List SlotAct :=
  match e.bidi with
  | some _ => [SlotAct.acceptBidi acceptTimeoutNs, SlotAct.readBidi]
  | none =>
    match e.uni with
    | some _ =>
      [SlotAct.acceptBidi acceptTimeoutNs, SlotAct.acceptUni acceptTimeoutNs,
       SlotAct.readUni]
    | none =>
      [SlotAct.acceptBidi acceptTimeoutNs, SlotAct.acceptUni acceptTimeoutNs,
       SlotAct.logAcceptErrors]

/-- The value of the shared byte counter after the download barrier: the
sum of every task's increments (justified by the no-lost-update theorem
for the lock machine below). -/
def phaseTotal (cfg : Config) (envs : List SlotEnv) : Nat :=
  (envs.map (fun e => (runSlot cfg e).bytes)).sum

/-- The number of entries in the shared `times` list after the download
barrier: one per task whose read loop exited. -/
def phaseDurCount (cfg : Config) (envs : List SlotEnv) : Nat :=
  (envs.map (fun e => if (runSlot cfg e).durRecorded then 1 else 0)).sum

/-! ### Upload task (main.go 115-139) -/

/-- Observable outcome of one upload goroutine. -/
structure UploadOutcome where
  /-- The payload slices passed to successful `Write` calls, in order. -/
  written : List (List Nat)
  /-- The write deadlines armed (initial arm, then one after every
  successful chunk), in order. -/
  arms : List Nat
  /-- Whether the loop wrote the whole payload without a write error. -/
  completed : Bool
  /-- Whether the deferred `stream.Close()` ran. -/
  closed : Bool
deriving DecidableEq, Repr

/-- The upload write loop (main.go 121-138) over the remaining payload
`rem`: while bytes remain, take `chunk = min(64*1024, remaining)`, write
it, and re-arm the write deadline.  `failAt` is the fault schedule: the
index of the `Write` call that returns an error (the task then returns at
once, abandoning the rest), `none` for a fault-free run.  Returns the
slices written, the deadlines armed inside the loop, and whether the loop
completed. -/
def uploadGo (rem : List Nat) (failAt : Option Nat) (idx : Nat) :
    List (List Nat) × List Nat × Bool :=
  if rem.isEmpty then ([], [], true)
  else
    let c := min chunkCap rem.length
    if failAt = some idx then ([], [], false)
    else
      let r := uploadGo (rem.drop c) failAt (idx + 1)
      (rem.take c :: r.1, writeDeadlineNs :: r.2.1, r.2.2)
termination_by rem.length
decreasing_by
  simp only [List.length_drop]
  have hne : rem ≠ [] := by
    intro h
    simp [h] at *
  have : 0 < rem.length := List.length_pos.mpr hne
  have : 0 < min chunkCap rem.length := by
    simp [chunkCap]
    omega
  omega

/-- One upload goroutine (main.go 115-139): arm an initial 30 s write
deadline, run the chunked write loop, and close the stream (deferred, so
it runs on the error path too). -/
def uploadTask (msg : List Nat) (failAt : Option Nat) : UploadOutcome :=
  let r := uploadGo msg failAt 0
  ⟨r.1, writeDeadlineNs :: r.2.1, r.2.2, true⟩

/-- The upload phase: one task per schedule entry, each with its own fault
schedule and no interaction between tasks. -/
def uploadPhase (msg : List Nat) (fails : List (Option Nat)) :
    List UploadOutcome :=
  fails.map (uploadTask msg)

/-- The chunk-size sequence stated by the specification: "chunks of at
most 64 KiB (each chunk being the minimum of 65536 and the remaining
bytes)".  Stated from the spec's words, to be compared with the slices
the embedded code writes. -/
def specChunkSizes (n : Nat) : List Nat :=
  if n = 0 then []
  else min 65536 n :: specChunkSizes (n - min 65536 n)
termination_by n
decreasing_by
  have : 0 < min 65536 n := by omega
  omega

/-! ### The mutex-protected shared counter (main.go 33, 185-189, 216-218)

Each download task increments the shared `total` inside
`mu.Lock(); total += n; mu.Unlock()`.  We model `n` concurrent tasks,
task `t` incrementing once by `a t`, with `total += a t` split into its
load and store so that a lost update is expressible; mutual exclusion is
the only thing preventing it. -/

/-- Shared state plus per-task private state: the shared counter, the
lock's holder, each task's private register (the loaded value of `total`),
and each task's program counter (0 = before `mu.Lock()`, 1 = lock held,
about to load `total`, 2 = about to store `total + a t`, 3 = about to
`mu.Unlock()`, 4 = done). -/
structure LockState (n : Nat) where
  total : Nat
  holder : Option (Fin n)
  reg : Fin n → Nat
  pc : Fin n → Nat

/-- The initial state: counter 0, lock free, every task at its start. -/
def initLockState (n : Nat) : LockState n :=
  ⟨0, none, fun _ => 0, fun _ => 0⟩

/-- Interleaving semantics: at any moment any one task takes its next
instruction, subject to the mutex discipline (`mu.Lock()` blocks while
the lock is held; the load, store and `mu.Unlock()` of task `t` run only
while `t` holds the lock). -/
inductive LockStep (n : Nat) (a : Fin n → Nat) :
    LockState n → LockState n → Prop
  | lock (t : Fin n) (s : LockState n) (h1 : s.pc t = 0)
      (h2 : s.holder = none) :
      LockStep n a s
        { s with holder := some t, pc := Function.update s.pc t 1 }
  | load (t : Fin n) (s : LockState n) (h1 : s.pc t = 1)
      (h2 : s.holder = some t) :
      LockStep n a s
        { s with reg := Function.update s.reg t s.total,
                 pc := Function.update s.pc t 2 }
  | store (t : Fin n) (s : LockState n) (h1 : s.pc t = 2)
      (h2 : s.holder = some t) :
      LockStep n a s
        { s with total := s.reg t + a t, pc := Function.update s.pc t 3 }
  | unlock (t : Fin n) (s : LockState n) (h1 : s.pc t = 3)
      (h2 : s.holder = some t) :
      LockStep n a s
        { s with holder := none, pc := Function.update s.pc t 4 }

/-- A state is reachable if some interleaving of the tasks' instructions
leads to it from the initial state. -/
def LockReachable (n : Nat) (a : Fin n → Nat) (s : LockState n) : Prop :=
  Relation.ReflTransGen (LockStep n a) (initLockState n) s

/-- The set of tasks whose increment has fully completed. -/
def doneSet (n : Nat) (s : LockState n) : Finset (Fin n) :=
  Finset.univ.filter (fun t => s.pc t = 4)

/-- The sum of the increments already performed: one full increment per
finished task, plus the increment of a lock holder that has already
stored. -/
def perfInc (n : Nat) (a : Fin n → Nat) (s : LockState n) : Nat :=
  (∑ t ∈ doneSet n s, a t) +
    (match s.holder with
     | some t0 => if s.pc t0 = 3 then a t0 else 0
     | none => 0)

/-- The inductive invariant of the lock machine: when the lock is free,
every task is entirely before or entirely after its critical section and
the counter holds the sum of the finished increments; when task `t0`
holds the lock, every other task is outside its critical section, and the
counter and `t0`'s register reflect how far `t0` has progressed. -/
def lockInv (n : Nat) (a : Fin n → Nat) (s : LockState n) : Prop :=
  (s.holder = none →
    (∀ t, s.pc t = 0 ∨ s.pc t = 4) ∧ s.total = ∑ t ∈ doneSet n s, a t)
  ∧ (∀ t0, s.holder = some t0 →
      (s.pc t0 = 1 ∨ s.pc t0 = 2 ∨ s.pc t0 = 3)
      ∧ (∀ t, t ≠ t0 → s.pc t = 0 ∨ s.pc t = 4)
      ∧ ((s.pc t0 = 1 ∨ s.pc t0 = 2) → s.total = ∑ t ∈ doneSet n s, a t)
      ∧ (s.pc t0 = 2 → s.reg t0 = s.total)
      ∧ (s.pc t0 = 3 → s.total = (∑ t ∈ doneSet n s, a t) + a t0))

/-- The four states of the one-task demonstration run, in order: the task
locks, loads, stores and unlocks. -/
def demoTid : Fin 1 := ⟨0, Nat.zero_lt_one⟩

/-- State after `mu.Lock()` in the demonstration run. -/
def demoS1 : LockState 1 :=
  { initLockState 1 with
    holder := some demoTid
    pc := Function.update (initLockState 1).pc demoTid 1 }

/-- State after loading `total` in the demonstration run. -/
def demoS2 : LockState 1 :=
  { demoS1 with
    reg := Function.update demoS1.reg demoTid demoS1.total
    pc := Function.update demoS1.pc demoTid 2 }

/-- State after storing `total + 7` in the demonstration run. -/
def demoS3 : LockState 1 :=
  { demoS2 with
    total := demoS2.reg demoTid + 7
    pc := Function.update demoS2.pc demoTid 3 }

/-- Final state of the demonstration run. -/
def demoS4 : LockState 1 :=
  { demoS3 with holder := none, pc := Function.update demoS3.pc demoTid 4 }

/-! ### Helper lemmas: payload generator -/

theorem generatePRDataGo_length (seed l : Nat) :
    (generatePRDataGo seed l).length = l := by
  induction l generalizing seed with
  | zero => rfl
  | succ n ih => simp [generatePRDataGo, ih]

theorem prSeedFrom_step (seed n : Nat) :
    prSeedFrom (prStep seed) n = prSeedFrom seed (n + 1) := by
  induction n with
  | zero => rfl
  | succ m ih => simp [prSeedFrom, ih]

theorem generatePRDataGo_getElem (seed l i : Nat)
    (h : i < (generatePRDataGo seed l).length) :
    (generatePRDataGo seed l)[i] = prSeedFrom seed (i + 1) % 256 := by
  induction l generalizing seed i with
  | zero => simp [generatePRDataGo_length] at h
  | succ n ih =>
    cases i with
    | zero => simp [generatePRDataGo, prSeedFrom]
    | succ j =>
      have hj : j < (generatePRDataGo (prStep seed) n).length := by
        have := h
        simp only [generatePRDataGo_length] at this ⊢
        omega
      simp only [generatePRDataGo, List.getElem_cons_succ]
      rw [ih (prStep seed) j hj, prSeedFrom_step]

/-! ### Claim theorems -/

/-- C2: the payload generator is pure and deterministic (equal sizes give
bit-identical output), `generate(0)` is empty, byte `i` is the low-order
byte of the `(i+1)`-th value of the linear-congruential sequence seeded at
1 with update `seed = seed * 48271 mod 2147483647`, and the first byte is
always `byte(48271)`. -/
theorem C2_payload_generator (n1 n2 i : Nat) (heq : n1 = n2) (h : i < n1) :
    generatePRData n1 = generatePRData n2
    ∧ generatePRData 0 = []
    ∧ (generatePRData n1)[i]? = some (prSeed (i + 1) % 256)
    ∧ (generatePRData n1).head? = some (48271 % 256) := by
  subst heq
  refine ⟨rfl, rfl, ?_, ?_⟩
  · have hl : i < (generatePRData n1).length := by
      simpa [generatePRData, generatePRDataGo_length] using h
    rw [List.getElem?_eq_getElem hl]
    exact congrArg some (generatePRDataGo_getElem 1 n1 i hl)
  · cases n1 with
    | zero => omega
    | succ m => rfl

/-- Witness for C2 at `n = 5`, `i = 0`. -/
theorem C2_payload_generator_witness :
    generatePRData 5 = generatePRData 5
    ∧ generatePRData 0 = []
    ∧ (generatePRData 5)[0]? = some (prSeed 1 % 256)
    ∧ (generatePRData 5).head? = some (48271 % 256) :=
  C2_payload_generator 5 5 0 rfl (by decide)

/-- C1: when at least one duration was recorded and the byte total is
nonzero, the report is `total*8` divided by the average duration in
seconds (integer-divided nanosecond average), divided by the binary-mega
constant 1,048,576 (not 1,000,000); at `total = 1048576` bytes and a
one-second average the figure is exactly 8. -/
theorem C1_throughput_formula (total : Nat) (times : List Nat)
    (h1 : times ≠ []) (h2 : total ≠ 0) :
    report total times =
      some (((total * 8 : Nat) : ℚ) /
        (((times.sum / times.length : Nat) : ℚ) / (second : ℚ)) / ( ratio : ℚ))
    ∧ ratio = 1048576
    ∧ ratio ≠ 1000000
    ∧ report 1048576 [second] = some 8 := by
  refine ⟨?_, rfl, by decide, ?_⟩
  · have hlen : times.length ≠ 0 := by
      simpa using h1
    simp [report, hlen, h2, mbps, bps, avgDurSeconds, avgDurNs]
  · norm_num [report, mbps, bps, avgDurSeconds, avgDurNs, ratio, second]

/-- Witness for C1 at `total = 1048576`, `times = [second]`. -/
theorem C1_throughput_formula_witness :
    report 1048576 [second] =
      some (((1048576 * 8 : Nat) : ℚ) /
        ((([second].sum / [second].length : Nat) : ℚ) / (second : ℚ)) / ( ratio : ℚ))
    ∧ ratio = 1048576
    ∧ ratio ≠ 1000000
    ∧ report 1048576 [second] = some 8 :=
  C1_throughput_formula 1048576 [second] (by decide) (by decide)

/-- C4: with an empty duration collection or a zero byte total, the
report is the "no data received" outcome — no average, no division, no
Mbps figure. -/
theorem C4_no_data_guard (total : Nat) (times : List Nat)
    (h : times = [] ∨ total = 0) :
    report total times = none := by
  rcases h with h | h
  · simp [report, h]
  · simp [report, h]

/-- Witness for C4 at `total = 0`, `times = [second]`. -/
theorem C4_no_data_guard_witness : report 0 [second] = none :=
  C4_no_data_guard 0 [second] (Or.inr rfl)

/-! ### Helper lemmas: download read loop and slots -/

theorem runLoop_exited_iff (readTO : Nat) (hasDL : Bool) (tr : List ReadEvt) :
    (runLoop readTO hasDL tr).exited = true ↔
      ∃ e ∈ tr, e.err = some ReadErr.eof ∨ e.err = some ReadErr.other := by
  induction tr with
  | nil => simp [runLoop]
  | cons e rest ih =>
    cases he : e.err with
    | none => simp [runLoop, he, ih]
    | some er =>
      cases er with
      | eof => simp [runLoop, he]
      | timeout => simp [runLoop, he, ih]
      | other => simp [runLoop, he]

theorem runLoop_exited_reads (readTO : Nat) (hasDL : Bool)
    (tr : List ReadEvt) (h : (runLoop readTO hasDL tr).exited = true) :
    1 ≤ (runLoop readTO hasDL tr).reads := by
  cases tr with
  | nil => simp [runLoop] at h
  | cons e rest =>
    cases he : e.err with
    | none => simp [runLoop, he]
    | some er => cases er <;> simp [runLoop, he]

theorem runLoop_replicate_timeout (readTO : Nat) (hasDL : Bool) (m k : Nat)
    (rest : List ReadEvt) :
    (runLoop readTO hasDL
        (List.replicate k ⟨m, some ReadErr.timeout⟩ ++ rest)).exited
      = (runLoop readTO hasDL rest).exited := by
  induction k with
  | zero => rfl
  | succ j ih => simpa [List.replicate_succ, runLoop] using ih

theorem runSlot_bytes_dur (cfg : Config) (e : SlotEnv)
    (ht : (runSlot cfg e).terminated = true)
    (hb : 0 < (runSlot cfg e).bytes) :
    (runSlot cfg e).durRecorded = true := by
  rcases e with ⟨bidi, uni, hdl⟩
  cases bidi with
  | some tr => simpa [runSlot] using ht
  | none =>
    cases uni with
    | some tr => simpa [runSlot] using ht
    | none => simp [runSlot] at hb

/-- C3: a download slot whose bidirectional accept and unidirectional
fallback both fail (within the 30 s accept timeout each, attempted in
that order, both errors logged) contributes zero bytes and no duration
entry, terminates, and leaves every other slot's contribution unchanged. -/
theorem C3_accept_fallback (cfg : Config) (b : Bool) (e : SlotEnv)
    (l1 l2 : List SlotEnv) (hb : e.bidi = none) :
    runSlot cfg ⟨none, none, b⟩ = ⟨0, false, true, 0⟩
    ∧ slotTrace cfg ⟨none, none, b⟩ =
        [SlotAct.acceptBidi (30 * second), SlotAct.acceptUni (30 * second),
         SlotAct.logAcceptErrors]
    ∧ phaseTotal cfg (l1 ++ ⟨none, none, b⟩ :: l2) = phaseTotal cfg (l1 ++ l2)
    ∧ phaseDurCount cfg (l1 ++ ⟨none, none, b⟩ :: l2)
        = phaseDurCount cfg (l1 ++ l2)
    ∧ (slotTrace cfg e).head? = some (SlotAct.acceptBidi acceptTimeoutNs)
    ∧ (slotTrace cfg e).take 2 =
        [SlotAct.acceptBidi acceptTimeoutNs, SlotAct.acceptUni acceptTimeoutNs]
    ∧ acceptTimeoutNs = 30 * second := by
  rcases e with ⟨bidi, uni, hdl⟩
  cases bidi with
  | some tr => simp at hb
  | none =>
    refine ⟨rfl, rfl, ?_, ?_, ?_, ?_, rfl⟩
    · simp [phaseTotal, runSlot]
    · simp [phaseDurCount, runSlot]
    · cases uni <;> rfl
    · cases uni <;> rfl

/-- Witness for C3 at a concrete failed slot. -/
theorem C3_accept_fallback_witness :
    runSlot ⟨false, 30 * second⟩ ⟨none, none, false⟩ = ⟨0, false, true, 0⟩
    ∧ slotTrace ⟨false, 30 * second⟩ ⟨none, none, false⟩ =
        [SlotAct.acceptBidi (30 * second), SlotAct.acceptUni (30 * second),
         SlotAct.logAcceptErrors]
    ∧ phaseTotal ⟨false, 30 * second⟩
        ([⟨some [⟨7, some ReadErr.eof⟩], none, false⟩] ++ ⟨none, none, false⟩ :: [])
        = phaseTotal ⟨false, 30 * second⟩
            ([⟨some [⟨7, some ReadErr.eof⟩], none, false⟩] ++ [])
    ∧ phaseDurCount ⟨false, 30 * second⟩
        ([⟨some [⟨7, some ReadErr.eof⟩], none, false⟩] ++ ⟨none, none, false⟩ :: [])
        = phaseDurCount ⟨false, 30 * second⟩
            ([⟨some [⟨7, some ReadErr.eof⟩], none, false⟩] ++ [])
    ∧ (slotTrace ⟨false, 30 * second⟩ ⟨none, none, true⟩).head?
        = some (SlotAct.acceptBidi acceptTimeoutNs)
    ∧ (slotTrace ⟨false, 30 * second⟩ ⟨none, none, true⟩).take 2 =
        [SlotAct.acceptBidi acceptTimeoutNs, SlotAct.acceptUni acceptTimeoutNs]
    ∧ acceptTimeoutNs = 30 * second :=
  C3_accept_fallback ⟨false, 30 * second⟩ false ⟨none, none, true⟩
    [⟨some [⟨7, some ReadErr.eof⟩], none, false⟩] [] rfl

/-- C5: a download task records a duration entry if and only if it
performed at least one read, given that the task ran to completion (the
report point lies after the download barrier, so every observed task has).
An accepted stream on which no read ever completes records nothing. -/
theorem C5_duration_iff_read (cfg : Config) (e : SlotEnv)
    (h : (runSlot cfg e).terminated = true) :
    ((runSlot cfg e).durRecorded = true ↔ 1 ≤ (runSlot cfg e).reads) := by
  rcases e with ⟨bidi, uni, hdl⟩
  cases bidi with
  | some tr =>
    simp only [runSlot] at h ⊢
    exact ⟨fun hd => runLoop_exited_reads _ _ _ hd, fun _ => h⟩
  | none =>
    cases uni with
    | some tr =>
      simp only [runSlot] at h ⊢
      exact ⟨fun hd => runLoop_exited_reads _ _ _ hd, fun _ => h⟩
    | none => simp [runSlot]

/-- Witness for C5 at a slot that accepted a bidirectional stream and read
one EOF-terminated chunk. -/
theorem C5_duration_iff_read_witness :
    (runSlot ⟨false, 30 * second⟩
        ⟨some [⟨9, some ReadErr.eof⟩], none, false⟩).durRecorded = true
      ↔ 1 ≤ (runSlot ⟨false, 30 * second⟩
        ⟨some [⟨9, some ReadErr.eof⟩], none, false⟩).reads :=
  C5_duration_iff_read ⟨false, 30 * second⟩
    ⟨some [⟨9, some ReadErr.eof⟩], none, false⟩ (by decide)

/-- C6: in the download read loop (both variants share it), a
timeout-classified read error never terminates the loop: the iteration's
bytes are kept, the deadline is re-armed, and the loop continues into the
rest of the trace, with no bound on the number of consecutive tolerated
timeouts; the loop exits exactly on end-of-stream or a non-timeout
error. -/
theorem C6_timeout_tolerated (readTO m k : Nat) (hasDL : Bool)
    (tr rest : List ReadEvt) :
    runLoop readTO hasDL (⟨m, some ReadErr.timeout⟩ :: rest)
      = ⟨m + (runLoop readTO hasDL rest).bytes,
         (runLoop readTO hasDL rest).exited,
         1 + (runLoop readTO hasDL rest).reads,
         armOf readTO hasDL ++ (runLoop readTO hasDL rest).arms⟩
    ∧ (runLoop readTO hasDL
          (List.replicate k ⟨m, some ReadErr.timeout⟩ ++ rest)).exited
        = (runLoop readTO hasDL rest).exited
    ∧ ((runLoop readTO hasDL tr).exited = true ↔
        ∃ e ∈ tr, e.err = some ReadErr.eof ∨ e.err = some ReadErr.other)
    ∧ (runLoop readTO true (⟨m, some ReadErr.timeout⟩ :: rest)).arms
        = readTO :: (runLoop readTO true rest).arms :=
  ⟨rfl, runLoop_replicate_timeout readTO hasDL m k rest,
   runLoop_exited_iff readTO hasDL tr,
   by simp [runLoop, armOf]⟩

/-- C7: the download acceptance state machine never consults the
unidirectional-mode toggle — flipping it changes no slot outcome, no
action trace, and no aggregate — and every possible action trace attempts
the bidirectional accept first, with the unidirectional accept only ever
following a failed bidirectional one. -/
theorem C7_uni_flag_unused (cfg : Config) (b : Bool) (e : SlotEnv)
    (envs : List SlotEnv) :
    runSlot { cfg with downloadUni := b } e = runSlot cfg e
    ∧ slotTrace { cfg with downloadUni := b } e = slotTrace cfg e
    ∧ phaseTotal { cfg with downloadUni := b } envs = phaseTotal cfg envs
    ∧ phaseDurCount { cfg with downloadUni := b } envs
        = phaseDurCount cfg envs
    ∧ (slotTrace cfg e = [SlotAct.acceptBidi acceptTimeoutNs, SlotAct.readBidi]
       ∨ slotTrace cfg e =
          [SlotAct.acceptBidi acceptTimeoutNs, SlotAct.acceptUni acceptTimeoutNs,
           SlotAct.readUni]
       ∨ slotTrace cfg e =
          [SlotAct.acceptBidi acceptTimeoutNs, SlotAct.acceptUni acceptTimeoutNs,
           SlotAct.logAcceptErrors]) := by
  obtain ⟨u, rto⟩ := cfg
  refine ⟨rfl, rfl, rfl, rfl, ?_⟩
  rcases e with ⟨bidi, uni, hdl⟩
  cases bidi with
  | some tr => exact Or.inl rfl
  | none =>
    cases uni with
    | some tr => exact Or.inr (Or.inl rfl)
    | none => exact Or.inr (Or.inr rfl)

/-- C10: if the report point is reached (all download tasks terminated)
with a nonzero byte total, the duration collection is non-empty: a task
that contributed bytes also appended a duration entry before finishing. -/
theorem C10_total_implies_duration (cfg : Config) (envs : List SlotEnv)
    (hterm : ∀ e ∈ envs, (runSlot cfg e).terminated = true)
    (htot : 0 < phaseTotal cfg envs) :
    0 < phaseDurCount cfg envs := by
  induction envs with
  | nil => simp [phaseTotal] at htot
  | cons e rest ih =>
    by_cases hb : 0 < (runSlot cfg e).bytes
    · have hd : (runSlot cfg e).durRecorded = true :=
        runSlot_bytes_dur cfg e (hterm e (List.mem_cons_self e rest)) hb
      simp [phaseDurCount, hd]
    · have h0 : (runSlot cfg e).bytes = 0 := by omega
      have htot2 : 0 < phaseTotal cfg rest := by
        simpa [phaseTotal, h0] using htot
      have hterm2 : ∀ x ∈ rest, (runSlot cfg x).terminated = true :=
        fun x hx => hterm x (List.mem_cons_of_mem e hx)
      have := ih hterm2 htot2
      simp only [phaseDurCount, List.map_cons, List.sum_cons] at this ⊢
      omega

/-- Witness for C10: one task delivered five bytes over a bidirectional
stream, one slot failed both accepts. -/
theorem C10_total_implies_duration_witness :
    0 < phaseDurCount ⟨false, 30 * second⟩
        [⟨some [⟨5, some ReadErr.eof⟩], none, false⟩, ⟨none, none, false⟩] :=
  C10_total_implies_duration ⟨false, 30 * second⟩
    [⟨some [⟨5, some ReadErr.eof⟩], none, false⟩, ⟨none, none, false⟩]
    (by decide) (by decide)

/-! ### Helper lemmas: upload task -/

theorem chunkCap_eq : chunkCap = 65536 := rfl

theorem uploadGo_nil (failAt : Option Nat) (idx : Nat) :
    uploadGo [] failAt idx = ([], [], true) := by
  rw [uploadGo]
  simp

theorem uploadGo_failNow (rem : List Nat) (idx : Nat)
    (hne : rem.isEmpty = false) :
    uploadGo rem (some idx) idx = ([], [], false) := by
  rw [uploadGo]
  simp [hne]

theorem uploadGo_cons (rem : List Nat) (failAt : Option Nat) (idx : Nat)
    (hne : rem.isEmpty = false) (hf : failAt ≠ some idx) :
    uploadGo rem failAt idx =
      (rem.take (min chunkCap rem.length) ::
         (uploadGo (rem.drop (min chunkCap rem.length)) failAt (idx + 1)).1,
       writeDeadlineNs ::
         (uploadGo (rem.drop (min chunkCap rem.length)) failAt (idx + 1)).2.1,
       (uploadGo (rem.drop (min chunkCap rem.length)) failAt (idx + 1)).2.2) := by
  conv_lhs => rw [uploadGo]
  simp [hne, hf]

theorem specChunkSizes_zero : specChunkSizes 0 = [] := by
  rw [specChunkSizes]
  simp

theorem specChunkSizes_pos (n : Nat) (h : n ≠ 0) :
    specChunkSizes n = min 65536 n :: specChunkSizes (n - min 65536 n) := by
  conv_lhs => rw [specChunkSizes]
  simp [h]

theorem specChunkSizes_mem_le (n x : Nat) (hx : x ∈ specChunkSizes n) :
    x ≤ 65536 := by
  induction n using Nat.strong_induction_on with
  | _ n ih =>
    by_cases h : n = 0
    · subst h
      rw [specChunkSizes_zero] at hx
      simp at hx
    · rw [specChunkSizes_pos n h] at hx
      rcases List.mem_cons.mp hx with h1 | h1
      · omega
      · have hlt : n - min 65536 n < n := by omega
        exact ih _ hlt h1

theorem uploadGo_none_char (len : Nat) : ∀ (rem : List Nat) (idx : Nat),
    rem.length ≤ len →
    (uploadGo rem none idx).1.flatten = rem
    ∧ (uploadGo rem none idx).2.2 = true
    ∧ (uploadGo rem none idx).1.map List.length = specChunkSizes rem.length
    ∧ (uploadGo rem none idx).2.1
        = List.replicate (uploadGo rem none idx).1.length writeDeadlineNs := by
  induction len with
  | zero =>
    intro rem idx hlen
    have : rem = [] := List.length_eq_zero.mp (by omega)
    subst this
    simp [uploadGo_nil, specChunkSizes_zero]
  | succ m ih =>
    intro rem idx hlen
    by_cases hre : rem.isEmpty
    · have : rem = [] := List.isEmpty_iff.mp hre
      subst this
      simp [uploadGo_nil, specChunkSizes_zero]
    · have hre2 : rem.isEmpty = false := by
        simpa using hre
      have hne : rem ≠ [] := by
        intro h
        simp [h] at hre
      have hpos : 0 < rem.length := List.length_pos.mpr hne
      have hc : 0 < min chunkCap rem.length := by
        rw [chunkCap_eq]
        omega
      have hrec : (rem.drop (min chunkCap rem.length)).length ≤ m := by
        simp only [List.length_drop]
        omega
      obtain ⟨j1, j2, j3, j4⟩ := ih (rem.drop (min chunkCap rem.length)) (idx + 1) hrec
      rw [uploadGo_cons rem none idx hre2 (by simp)]
      refine ⟨?_, j2, ?_, ?_⟩
      · simp [j1]
      · rw [List.map_cons, j3]
        rw [specChunkSizes_pos rem.length (by omega)]
        rw [chunkCap_eq] at *
        simp only [List.length_drop, List.length_take]
        congr 1
        omega
      · simp [j4, List.replicate_succ]

theorem uploadGo_fail_char (len : Nat) : ∀ (rem : List Nat) (idx j : Nat),
    rem.length ≤ len →
    (uploadGo rem (some (idx + j)) idx).1 = (uploadGo rem none idx).1.take j
    ∧ (uploadGo rem (some (idx + j)) idx).2.1
        = (uploadGo rem none idx).2.1.take j
    ∧ ((uploadGo rem (some (idx + j)) idx).2.2 = true
        ↔ (uploadGo rem none idx).1.length ≤ j) := by
  induction len with
  | zero =>
    intro rem idx j hlen
    have : rem = [] := List.length_eq_zero.mp (by omega)
    subst this
    simp [uploadGo_nil]
  | succ m ih =>
    intro rem idx j hlen
    by_cases hre : rem.isEmpty
    · have : rem = [] := List.isEmpty_iff.mp hre
      subst this
      simp [uploadGo_nil]
    · have hre2 : rem.isEmpty = false := by
        simpa using hre
      have hne : rem ≠ [] := by
        intro h
        simp [h] at hre
      have hpos : 0 < rem.length := List.length_pos.mpr hne
      have hrec : (rem.drop (min chunkCap rem.length)).length ≤ m := by
        have hc : 0 < min chunkCap rem.length := by
          rw [chunkCap_eq]
          omega
        simp only [List.length_drop]
        omega
      have hnone := uploadGo_cons rem none idx hre2 (by simp)
      cases j with
      | zero =>
        rw [Nat.add_zero, uploadGo_failNow rem idx hre2, hnone]
        simp
      | succ j' =>
        have hneq : (some (idx + (j' + 1)) : Option Nat) ≠ some idx := by
          intro hcon
          have := Option.some.inj hcon
          omega
        have harg : idx + (j' + 1) = (idx + 1) + j' := by omega
        obtain ⟨k1, k2, k3⟩ :=
          ih (rem.drop (min chunkCap rem.length)) (idx + 1) j' hrec
        rw [uploadGo_cons rem (some (idx + (j' + 1))) idx hre2 hneq, hnone]
        rw [harg] at *
        refine ⟨?_, ?_, ?_⟩
        · simp [k1, List.take_succ_cons]
        · simp [k2, List.take_succ_cons]
        · simpa [Nat.succ_le_succ_iff] using k3

/-- C8: a fault-free upload task writes the full payload in chunks of at
most 64 KiB, each chunk exactly the minimum of 65536 and the remaining
bytes; a 30-second write deadline is armed before each chunk (the initial
arm plus one re-arm after every chunk); a write error at chunk `j` aborts
only that task, keeping the first `j` chunks and writing nothing more;
and the stream is closed (deferred) on both the success and the error
path; tasks in the upload phase do not affect one another. -/
theorem C8_upload_chunks (msg : List Nat) (j : Nat)
    (hj : j < (uploadTask msg none).written.length) :
    (uploadTask msg none).written.flatten = msg
    ∧ (uploadTask msg none).completed = true
    ∧ (uploadTask msg none).written.map List.length = specChunkSizes msg.length
    ∧ (∀ c ∈ (uploadTask msg none).written, c.length ≤ chunkCap)
    ∧ (uploadTask msg none).arms
        = List.replicate ((uploadTask msg none).written.length + 1)
            writeDeadlineNs
    ∧ writeDeadlineNs = 30 * second
    ∧ (uploadTask msg (some j)).written = (uploadTask msg none).written.take j
    ∧ (uploadTask msg (some j)).completed = false
    ∧ (uploadTask msg (some j)).closed = true
    ∧ (uploadTask msg none).closed = true
    ∧ (∀ (l1 l2 : List (Option Nat)) (f : Option Nat),
        uploadPhase msg (l1 ++ f :: l2)
          = uploadPhase msg l1 ++ uploadTask msg f :: uploadPhase msg l2) := by
  obtain ⟨j1, j2, j3, j4⟩ := uploadGo_none_char msg.length msg 0 le_rfl
  obtain ⟨k1, k2, k3⟩ : (uploadGo msg (some j) 0).1
        = (uploadGo msg none 0).1.take j
      ∧ (uploadGo msg (some j) 0).2.1 = (uploadGo msg none 0).2.1.take j
      ∧ ((uploadGo msg (some j) 0).2.2 = true
          ↔ (uploadGo msg none 0).1.length ≤ j) := by
    have h := uploadGo_fail_char msg.length msg 0 j le_rfl
    rwa [Nat.zero_add] at h
  refine ⟨j1, j2, j3, ?_, ?_, rfl, k1, ?_, rfl, rfl, ?_⟩
  · intro c hc
    have hlen : c.length ∈ specChunkSizes msg.length := by
      rw [← j3]
      exact List.mem_map_of_mem List.length hc
    rw [chunkCap_eq]
    exact specChunkSizes_mem_le msg.length c.length hlen
  · show writeDeadlineNs :: (uploadGo msg none 0).2.1
        = List.replicate ((uploadGo msg none 0).1.length + 1) writeDeadlineNs
    rw [j4, List.replicate_succ]
  · cases hcomp : (uploadGo msg (some j) 0).2.2 with
    | false => exact hcomp
    | true =>
      have := k3.mp hcomp
      have hj2 : j < (uploadGo msg none 0).1.length := hj
      omega
  · intro l1 l2 f
    simp [uploadPhase]

/-- Witness for C8 at `msg = [1, 2, 3]`, failing write index `j = 0`. -/
theorem C8_upload_chunks_witness :
    (uploadTask [1, 2, 3] none).written.flatten = [1, 2, 3]
    ∧ (uploadTask [1, 2, 3] none).completed = true
    ∧ (uploadTask [1, 2, 3] none).written.map List.length = specChunkSizes 3
    ∧ (∀ c ∈ (uploadTask [1, 2, 3] none).written, c.length ≤ chunkCap)
    ∧ (uploadTask [1, 2, 3] none).arms
        = List.replicate ((uploadTask [1, 2, 3] none).written.length + 1)
            writeDeadlineNs
    ∧ writeDeadlineNs = 30 * second
    ∧ (uploadTask [1, 2, 3] (some 0)).written
        = (uploadTask [1, 2, 3] none).written.take 0
    ∧ (uploadTask [1, 2, 3] (some 0)).completed = false
    ∧ (uploadTask [1, 2, 3] (some 0)).closed = true
    ∧ (uploadTask [1, 2, 3] none).closed = true
    ∧ (∀ (l1 l2 : List (Option Nat)) (f : Option Nat),
        uploadPhase [1, 2, 3] (l1 ++ f :: l2)
          = uploadPhase [1, 2, 3] l1
              ++ uploadTask [1, 2, 3] f :: uploadPhase [1, 2, 3] l2) :=
  C8_upload_chunks [1, 2, 3] 0 (by
    have h : (uploadTask [1, 2, 3] none).written.map List.length
        = specChunkSizes 3 :=
      (uploadGo_none_char 3 [1, 2, 3] 0 (by simp)).2.2.1
    have h3 : (uploadTask [1, 2, 3] none).written.length
        = (specChunkSizes 3).length := by
      rw [← h, List.length_map]
    rw [h3, specChunkSizes_pos 3 (by omega)]
    simp)

/-! ### Helper lemmas: the lock machine -/

theorem mem_doneSet (n : Nat) (s : LockState n) (x : Fin n) :
    x ∈ doneSet n s ↔ s.pc x = 4 := by
  simp [doneSet]

theorem doneSet_update (n : Nat) (s s' : LockState n) (t : Fin n) (v : Nat)
    (hpc : s'.pc = Function.update s.pc t v) (hv : v ≠ 4) (ht : s.pc t ≠ 4) :
    doneSet n s' = doneSet n s := by
  ext x
  simp only [doneSet, Finset.mem_filter, Finset.mem_univ, true_and, hpc,
    Function.update_apply]
  rcases eq_or_ne x t with rfl | hx
  · simp [hv, ht]
  · simp [hx]

theorem doneSet_update_done (n : Nat) (s s' : LockState n) (t : Fin n)
    (hpc : s'.pc = Function.update s.pc t 4) :
    doneSet n s' = insert t (doneSet n s) := by
  ext x
  simp only [doneSet, Finset.mem_insert, Finset.mem_filter, Finset.mem_univ,
    true_and, hpc, Function.update_apply]
  rcases eq_or_ne x t with rfl | hx
  · simp
  · simp [hx]

theorem lockInv_init (n : Nat) (a : Fin n → Nat) :
    lockInv n a (initLockState n) := by
  constructor
  · intro _
    constructor
    · intro t
      exact Or.inl rfl
    · simp [initLockState, doneSet]
  · intro t0 h
    simp [initLockState] at h

theorem lockInv_step (n : Nat) (a : Fin n → Nat) (s s' : LockState n)
    (hstep : LockStep n a s s') (hinv : lockInv n a s) : lockInv n a s' := by
  obtain ⟨hfree, hheld⟩ := hinv
  cases hstep with
  | lock t _ h1 h2 =>
    obtain ⟨hpc0, htot⟩ := hfree h2
    have hds : doneSet n
        { s with holder := some t, pc := Function.update s.pc t 1 }
          = doneSet n s :=
      doneSet_update n s _ t 1 rfl (by omega) (by rw [h1]; omega)
    refine ⟨?_, ?_⟩
    · intro habs
      simp at habs
    · intro t0 heq
      have ht0 : t0 = t := by
        simp only at heq
        exact (Option.some.inj heq).symm
      subst ht0
      refine ⟨?_, ?_, ?_, ?_, ?_⟩
      · left
        simp
      · intro x hx
        simp only [Function.update_apply, if_neg hx]
        exact hpc0 x
      · intro _
        rw [hds]
        exact htot
      · intro habs
        simp at habs
      · intro habs
        simp at habs
  | load t _ h1 h2 =>
    obtain ⟨hpc123, hothers, h12, hr2, h3⟩ := hheld t h2
    have hds : doneSet n
        { s with reg := Function.update s.reg t s.total,
                 pc := Function.update s.pc t 2 }
          = doneSet n s :=
      doneSet_update n s _ t 2 rfl (by omega) (by rw [h1]; omega)
    refine ⟨?_, ?_⟩
    · intro habs
      simp only at habs
      rw [habs] at h2
      exact Option.noConfusion h2
    · intro t0 heq
      simp only at heq
      rw [heq] at h2
      have ht0 : t0 = t := Option.some.inj h2
      subst ht0
      refine ⟨?_, ?_, ?_, ?_, ?_⟩
      · right; left
        simp
      · intro x hx
        simp only [Function.update_apply, if_neg hx]
        exact hothers x hx
      · intro _
        rw [hds]
        exact h12 (Or.inl h1)
      · intro _
        simp [Function.update_apply]
      · intro habs
        simp at habs
  | store t _ h1 h2 =>
    obtain ⟨hpc123, hothers, h12, hr2, h3⟩ := hheld t h2
    have hds : doneSet n
        { s with total := s.reg t + a t, pc := Function.update s.pc t 3 }
          = doneSet n s :=
      doneSet_update n s _ t 3 rfl (by omega) (by rw [h1]; omega)
    refine ⟨?_, ?_⟩
    · intro habs
      simp only at habs
      rw [habs] at h2
      exact Option.noConfusion h2
    · intro t0 heq
      simp only at heq
      rw [heq] at h2
      have ht0 : t0 = t := Option.some.inj h2
      subst ht0
      refine ⟨?_, ?_, ?_, ?_, ?_⟩
      · right; right
        simp
      · intro x hx
        simp only [Function.update_apply, if_neg hx]
        exact hothers x hx
      · intro habs
        simp at habs
      · intro habs
        simp at habs
      · intro _
        rw [hds]
        simp only
        rw [hr2 h1, h12 (Or.inr h1)]
  | unlock t _ h1 h2 =>
    obtain ⟨hpc123, hothers, h12, hr2, h3⟩ := hheld t h2
    have hnotdone : t ∉ doneSet n s := by
      rw [mem_doneSet]
      omega
    have hds : doneSet n
        { s with holder := none, pc := Function.update s.pc t 4 }
          = insert t (doneSet n s) :=
      doneSet_update_done n s _ t rfl
    refine ⟨?_, ?_⟩
    · intro _
      refine ⟨?_, ?_⟩
      · intro x
        rcases eq_or_ne x t with rfl | hx
        · right
          simp
        · simp only [Function.update_apply, if_neg hx]
          exact hothers x hx
      · rw [hds, Finset.sum_insert hnotdone]
        simp only
        rw [h3 h1]
        omega
    · intro t0 habs
      simp at habs
  
theorem lockInv_reachable (n : Nat) (a : Fin n → Nat) (s : LockState n)
    (h : LockReachable n a s) : lockInv n a s := by
  induction h with
  | refl => exact lockInv_init n a
  | tail hsteps hstep ih => exact lockInv_step n a _ _ hstep ih

theorem lockInv_total_eq_perfInc (n : Nat) (a : Fin n → Nat)
    (s : LockState n) (h : lockInv n a s) : s.total = perfInc n a s := by
  obtain ⟨hfree, hheld⟩ := h
  cases hh : s.holder with
  | none =>
    obtain ⟨_, htot⟩ := hfree hh
    simp [perfInc, hh, htot]
  | some t0 =>
    obtain ⟨hpc, _, h12, _, h3⟩ := hheld t0 hh
    rcases hpc with h1 | h2 | h3'
    · simp [perfInc, hh, h1, h12 (Or.inl h1)]
    · simp [perfInc, hh, h2, h12 (Or.inr h2)]
    · simp [perfInc, hh, h3', h3 h3']

/-- C9: in every reachable state of the lock-protected counter machine,
the shared total equals the sum of the increments performed so far (no
lost updates), and when all `n` tasks — each incrementing once by a fixed
`amount` inside `mu.Lock(); total += n; mu.Unlock()` — have finished, the
total is exactly `n * amount`. -/
theorem C9_no_lost_updates (n amount : Nat) (s : LockState n)
    (h : LockReachable n (fun _ => amount) s) :
    s.total = perfInc n (fun _ => amount) s
    ∧ ((∀ t, s.pc t = 4) → s.total = n * amount) := by
  have hinv := lockInv_reachable n (fun _ => amount) s h
  refine ⟨lockInv_total_eq_perfInc n (fun _ => amount) s hinv, ?_⟩
  intro hall
  obtain ⟨hfree, hheld⟩ := hinv
  cases hh : s.holder with
  | some t0 =>
    obtain ⟨hpc, _, _, _, _⟩ := hheld t0 hh
    have := hall t0
    omega
  | none =>
    obtain ⟨_, htot⟩ := hfree hh
    have hds : doneSet n s = Finset.univ := by
      ext x
      simp [doneSet, hall x]
    rw [htot, hds]
    simp [Finset.sum_const, Finset.card_univ, Fintype.card_fin, smul_eq_mul,
      Nat.mul_comm]

/-- Witness for C9: one task increments by 7 through a complete
lock-load-store-unlock run. -/
theorem C9_no_lost_updates_witness :
    demoS4.total = perfInc 1 (fun _ => 7) demoS4
    ∧ ((∀ t, demoS4.pc t = 4) → demoS4.total = 1 * 7) :=
  C9_no_lost_updates 1 7 demoS4
    (Relation.ReflTransGen.head
      (LockStep.lock demoTid (initLockState 1) rfl rfl)
      (Relation.ReflTransGen.head
        (LockStep.load demoTid demoS1 (by simp [demoS1, initLockState]) rfl)
        (Relation.ReflTransGen.head
          (LockStep.store demoTid demoS2
            (by simp [demoS2, demoS1, initLockState]) rfl)
          (Relation.ReflTransGen.head
            (LockStep.unlock demoTid demoS3
              (by simp [demoS3, demoS2, demoS1, initLockState]) rfl)
            Relation.ReflTransGen.refl))))
